import Mathlib

/-!
Verification of the frame/trajectory core of `MDAnalysis.coordinates.base`
(`Timestep` and `IObase`) against its specification.

The embedding models:
* `Timestep` buffers (`_pos`, `_unitcell`) as Fortran-ordered (column-major)
  flat lists of rationals held in an explicit store, so that in-place
  mutation and aliasing between buffers can be stated;
* the three `Timestep.__init__` paths (int atom count, copy constructor,
  2-D ndarray adoption), `__getitem__` (int / slice / index-array),
  `__len__`, `__iter__`, `copy`, and the `dimensions` property;
* the `IObase` class body's unit-conversion methods, including Python's
  source-order method-table semantics (a later `def` with the same name
  overrides an earlier one).
Exact rational arithmetic stands in for `float32`.
-/

/-- Error kinds raised by the container operations. -/
inductive TErr where
  | InvalidArgument
  | InvalidShape
  | IndexOutOfRange
  | UnsupportedIndexType
deriving DecidableEq, Repr

/-- A numeric buffer in memory: `rows × cols` elements stored flat in
Fortran (column-major) order, so element `(i, j)` lives at `j * rows + i`.
The unit cell is a `6 × 1` buffer. -/
structure Buffer where
  rows : Nat
  cols : Nat
  flat : List ℚ
deriving DecidableEq, Repr

/-- Read logical row `i` of a Fortran-ordered buffer (one 3-vector of
`_pos` when `cols = 3`). -/
def Buffer.readRow (b : Buffer) (i : Nat) : List ℚ :=
  (List.range b.cols).map (fun j => b.flat.getD (j * b.rows + i) 0)

/-- A heap of buffers addressed by allocation order; `next` is the next
fresh address.  This makes aliasing and in-place mutation expressible. -/
structure Store where
  next : Nat
  mem : Nat → Buffer

/-- The empty heap. -/
def emptyStore : Store := ⟨0, fun _ => ⟨0, 0, []⟩⟩

/-- Overwrite the buffer at address `a` (models in-place mutation of a
numpy array). -/
def Store.write (s : Store) (a : Nat) (b : Buffer) : Store :=
  ⟨s.next, fun x => if x = a then b else s.mem x⟩

/-- Allocate a fresh buffer, returning its address. -/
def Store.alloc (s : Store) (b : Buffer) : Nat × Store :=
  (s.next, ⟨s.next + 1, fun x => if x = s.next then b else s.mem x⟩)

/-- The `Timestep` object: scalar fields inline, the two numpy arrays
(`_pos`, `_unitcell`) as store addresses. -/
structure Timestep where
  frame : Int
  numatoms : Nat
  posRef : Nat
  cellRef : Nat
deriving DecidableEq, Repr

/-- A `Timestep` is well-formed w.r.t. a store when its two buffers are
allocated and distinct. -/
def Timestep.WF (s : Store) (t : Timestep) : Prop :=
  t.posRef < s.next ∧ t.cellRef < s.next ∧ t.posRef ≠ t.cellRef

instance (s : Store) (t : Timestep) : Decidable (Timestep.WF s t) := by
  unfold Timestep.WF; infer_instance

/-- `Timestep.__init__` on an `int` argument: `frame = 0`,
`numatoms = n`, `_pos = numpy.zeros((n, 3), float32, order='F')`,
`_unitcell = numpy.zeros(6, float32)`. -/
def Timestep.new (s : Store) (n : Nat) : Timestep × Store :=
  let pa := Store.alloc s ⟨n, 3, List.replicate (3 * n) 0⟩
  let ca := Store.alloc pa.2 ⟨6, 1, List.replicate 6 0⟩
  ({ frame := 0, numatoms := n, posRef := pa.1, cellRef := ca.1 }, ca.2)

/-- `Timestep.__init__` on a `Timestep` argument (the copy constructor,
reached from `copy()` via `__deepcopy__`): copies `frame` and `numatoms`
and allocates fresh copies of `_unitcell` then `_pos` with
`numpy.array(...)`. -/
def Timestep.copy (s : Store) (t : Timestep) : Timestep × Store :=
  let ca := Store.alloc s (s.mem t.cellRef)
  let pa := Store.alloc ca.2 (s.mem t.posRef)
  ({ frame := t.frame, numatoms := t.numatoms, posRef := pa.1, cellRef := ca.1 },
   pa.2)

/-- `Timestep.__len__`: returns `numatoms`. -/
def Timestep.len (t : Timestep) : Nat := t.numatoms

/-- The `dimensions` property:
`numpy.take(self._unitcell, [0, 2, 5, 1, 3, 4])`. -/
def Timestep.dimensions (s : Store) (t : Timestep) : List ℚ :=
  [0, 2, 5, 1, 3, 4].map (fun i => (s.mem t.cellRef).flat.getD i 0)

/-- `List.getD` on `replicate` yields the replicated value (or the
default, which is the same here). -/
theorem getD_replicate_zero (n k : Nat) :
    (List.replicate n (0 : ℚ)).getD k 0 = 0 := by
  simp

/-- C3: `dimensions()` reorders the internal unit-cell storage
`[A, alpha, B, beta, gamma, C]` to canonical
`[A, B, C, alpha, beta, gamma]`. -/
theorem dimensions_reorders (s : Store) (t : Timestep)
    (A al B be ga C : ℚ)
    (h : (s.mem t.cellRef).flat = [A, al, B, be, ga, C]) :
    Timestep.dimensions s t = [A, B, C, al, be, ga] := by
  simp [Timestep.dimensions, h, List.getD]

/-- Fixture: a fresh two-atom frame. -/
def ts2 : Timestep × Store := Timestep.new emptyStore 2

/-- Fixture: `ts2`'s store with the unit cell buffer mutated in place to
`[1, 2, 3, 4, 5, 6]`. -/
def storeCell123456 : Store :=
  Store.write ts2.2 ts2.1.cellRef ⟨6, 1, [1, 2, 3, 4, 5, 6]⟩

/-- Witness for C3: with internal storage `[1,2,3,4,5,6]`,
`dimensions()` returns `[1,3,6,2,4,5]`. -/
theorem dimensions_reorders_witness :
    (storeCell123456.mem ts2.1.cellRef).flat = [1, 2, 3, 4, 5, 6] ∧
    Timestep.dimensions storeCell123456 ts2.1 = [1, 3, 6, 2, 4, 5] := by
  refine ⟨by decide, ?_⟩
  have h := dimensions_reorders storeCell123456 ts2.1 1 2 3 4 5 6 (by decide)
  exact h

/-- C5: `new_by_atom_count(n)` yields a frame of length `n` with a
zero-filled `(n, 3)` position buffer and an all-zero unit cell. -/
theorem new_zero_filled (s : Store) (n : Nat) (t : Timestep) (s2 : Store)
    (h : Timestep.new s n = (t, s2)) :
    Timestep.len t = n ∧
    t.numatoms = n ∧
    (s2.mem t.posRef).rows = n ∧
    (s2.mem t.posRef).cols = 3 ∧
    (∀ k, (s2.mem t.posRef).flat.getD k 0 = 0) ∧
    (∀ i, i < n → (s2.mem t.posRef).readRow i = [0, 0, 0]) ∧
    (∀ k, (s2.mem t.cellRef).flat.getD k 0 = 0) := by
  have ht : t = (Timestep.new s n).1 := by rw [h]
  have hs : s2 = (Timestep.new s n).2 := by rw [h]
  subst ht; subst hs
  have hp : (Timestep.new s n).2.mem (Timestep.new s n).1.posRef
      = ⟨n, 3, List.replicate (3 * n) 0⟩ := by
    show (if s.next = s.next + 1 then _ else if s.next = s.next then _ else _) = _
    rw [if_neg (by omega), if_pos rfl]
  have hc : (Timestep.new s n).2.mem (Timestep.new s n).1.cellRef
      = ⟨6, 1, List.replicate 6 0⟩ := by
    show (if s.next + 1 = s.next + 1 then _ else _) = _
    rw [if_pos rfl]
  refine ⟨rfl, rfl, by rw [hp], by rw [hp], ?_, ?_, ?_⟩
  · intro k; rw [hp]; exact getD_replicate_zero _ _
  · intro i _
    rw [hp]
    simp [Buffer.readRow, List.range_succ]
  · intro k; rw [hc]; exact getD_replicate_zero _ _

/-- Witness for C5 at `n = 2`. -/
theorem new_zero_filled_witness :
    Timestep.len ts2.1 = 2 ∧
    ts2.1.numatoms = 2 ∧
    (ts2.2.mem ts2.1.posRef).rows = 2 ∧
    (ts2.2.mem ts2.1.posRef).cols = 3 ∧
    (∀ k, (ts2.2.mem ts2.1.posRef).flat.getD k 0 = 0) ∧
    (∀ i, i < 2 → (ts2.2.mem ts2.1.posRef).readRow i = [0, 0, 0]) ∧
    (∀ k, (ts2.2.mem ts2.1.cellRef).flat.getD k 0 = 0) :=
  new_zero_filled emptyStore 2 ts2.1 ts2.2 rfl

/-- `Timestep.__getitem__` on an `int` index (`get_atom`): a negative
index is shifted by `numatoms`; a resolved index outside `[0, numatoms)`
raises `IndexError`; otherwise the row `self._pos[atoms]` is returned. -/
def Timestep.getAtom (s : Store) (t : Timestep) (i : Int) :
    Except TErr (List ℚ) :=
  let j := if i < 0 then (t.numatoms : Int) + i else i
  if j < 0 ∨ (t.numatoms : Int) ≤ j then .error .IndexOutOfRange
  else .ok ((s.mem t.posRef).readRow j.toNat)

/-- C4: `get_atom(i)` succeeds exactly on resolved indices in
`[0, numatoms)`, returning the row at the resolved index; in particular
`get_atom(n)` and `get_atom(-n-1)` fail with `IndexOutOfRange`. -/
theorem getAtom_spec (s : Store) (t : Timestep) :
    (∀ i : Int, -(t.numatoms : Int) ≤ i → i < (t.numatoms : Int) →
      Timestep.getAtom s t i =
        .ok ((s.mem t.posRef).readRow
          (if i < 0 then (t.numatoms : Int) + i else i).toNat)) ∧
    Timestep.getAtom s t (t.numatoms : Int) = .error .IndexOutOfRange ∧
    Timestep.getAtom s t (-(t.numatoms : Int) - 1) = .error .IndexOutOfRange ∧
    (∀ i : Int,
      ((if i < 0 then (t.numatoms : Int) + i else i) < 0 ∨
        (t.numatoms : Int) ≤ (if i < 0 then (t.numatoms : Int) + i else i)) →
      Timestep.getAtom s t i = .error .IndexOutOfRange) := by
  refine ⟨?_, ?_, ?_, ?_⟩
  · intro i h1 h2
    unfold Timestep.getAtom
    rw [if_neg (by split <;> omega)]
  · unfold Timestep.getAtom
    rw [if_pos (by split <;> omega)]
  · unfold Timestep.getAtom
    rw [if_pos (by split <;> omega)]
  · intro i h
    unfold Timestep.getAtom
    rw [if_pos h]

/-- Fixture: `ts2`'s store with the position buffer mutated in place to
the Fortran-ordered data of rows `[1, 3, 5]` and `[2, 4, 6]`. -/
def storePos123456 : Store :=
  Store.write ts2.2 ts2.1.posRef ⟨2, 3, [1, 2, 3, 4, 5, 6]⟩

/-- Witness for C4 on the two-atom frame: `get_atom(1)` and
`get_atom(-1)` return row 1, and `get_atom(2)`, `get_atom(-3)` fail. -/
theorem getAtom_spec_witness :
    Timestep.getAtom storePos123456 ts2.1 1 = .ok [2, 4, 6] ∧
    Timestep.getAtom storePos123456 ts2.1 (-1) = .ok [2, 4, 6] ∧
    Timestep.getAtom storePos123456 ts2.1 2 = .error .IndexOutOfRange ∧
    Timestep.getAtom storePos123456 ts2.1 (-3) = .error .IndexOutOfRange := by
  have h := getAtom_spec storePos123456 ts2.1
  refine ⟨?_, ?_, ?_, ?_⟩
  · rw [h.1 1 (by decide) (by decide)]
    exact congrArg Except.ok (by decide)
  · rw [h.1 (-1) (by decide) (by decide)]
    exact congrArg Except.ok (by decide)
  · exact h.2.2.2 2 (by decide)
  · exact h.2.2.2 (-3) (by decide)

/-- `Timestep.__iter__`: each call builds a fresh generator
`iterTS()` yielding `self[i]` for `i in xrange(self.numatoms)`; this is
the full sequence it produces (the default is never reached, since every
`i < numatoms` succeeds). -/
def Timestep.iterate (s : Store) (t : Timestep) : List (List ℚ) :=
  (List.range t.numatoms).map (fun (i : Nat) =>
    match Timestep.getAtom s t (Int.ofNat i) with
    | .ok v => v
    | .error _ => [])

/-- C8: `iterate()` yields exactly `numatoms` items, its `k`-th item is
`get_atom(k)`, and a second fresh call yields the identical sequence. -/
theorem iterate_spec (s : Store) (t : Timestep) :
    (Timestep.iterate s t).length = Timestep.len t ∧
    (∀ k, k < t.numatoms →
      Timestep.getAtom s t (Int.ofNat k) =
        .ok ((Timestep.iterate s t).getD k [])) ∧
    Timestep.iterate s t = Timestep.iterate s t := by
  have hok : ∀ k, k < t.numatoms →
      Timestep.getAtom s t (Int.ofNat k) =
        .ok ((s.mem t.posRef).readRow k) := by
    intro k hk
    unfold Timestep.getAtom
    rw [if_neg (by simp only [Int.ofNat_eq_coe]; split <;> omega),
      if_neg (by simp only [Int.ofNat_eq_coe]; omega)]
    simp
  refine ⟨?_, ?_, rfl⟩
  · unfold Timestep.iterate Timestep.len
    rw [List.length_map, List.length_range]
  · intro k hk
    rw [hok k hk]
    unfold Timestep.iterate
    rw [List.getD_eq_getElem?_getD, List.getElem?_map, List.getElem?_range hk]
    simp only [Option.map_some', Option.getD_some]
    rw [hok k hk]

/-- Witness for C8 on the concrete two-atom frame. -/
theorem iterate_spec_witness :
    (Timestep.iterate storePos123456 ts2.1).length = Timestep.len ts2.1 ∧
    Timestep.getAtom storePos123456 ts2.1 (Int.ofNat 1) =
      Except.ok ((Timestep.iterate storePos123456 ts2.1).getD 1 []) ∧
    Timestep.iterate storePos123456 ts2.1 = Timestep.iterate storePos123456 ts2.1 := by
  have h := iterate_spec storePos123456 ts2.1
  exact ⟨h.1, h.2.1 1 (by decide), h.2.2⟩

/-- C6: the copy constructor duplicates the data into fresh buffers:
positions and unit cell are equal at copy time, the original is untouched,
and afterwards overwriting (mutating) either frame's position or unit-cell
buffer leaves the other frame's buffers unchanged. -/
theorem copy_fields (s : Store) (t : Timestep) :
    (Timestep.copy s t).1 =
      ⟨t.frame, t.numatoms, s.next + 1, s.next⟩ := rfl

theorem copy_mem (s : Store) (t : Timestep) (x : Nat) :
    (Timestep.copy s t).2.mem x =
      if x = s.next + 1 then s.mem t.posRef
      else if x = s.next then s.mem t.cellRef
      else s.mem x := rfl

theorem write_mem (s : Store) (a : Nat) (b : Buffer) (x : Nat) :
    (Store.write s a b).mem x = if x = a then b else s.mem x := rfl

theorem copy_independent (s : Store) (t : Timestep) (b : Buffer)
    (hwf : Timestep.WF s t) :
    ∀ t2 s2, Timestep.copy s t = (t2, s2) →
      t2.numatoms = t.numatoms ∧
      t2.frame = t.frame ∧
      s2.mem t2.posRef = s.mem t.posRef ∧
      s2.mem t2.cellRef = s.mem t.cellRef ∧
      s2.mem t.posRef = s.mem t.posRef ∧
      s2.mem t.cellRef = s.mem t.cellRef ∧
      (Store.write s2 t2.posRef b).mem t.posRef = s2.mem t.posRef ∧
      (Store.write s2 t2.cellRef b).mem t.cellRef = s2.mem t.cellRef ∧
      (Store.write s2 t.posRef b).mem t2.posRef = s2.mem t2.posRef ∧
      (Store.write s2 t.cellRef b).mem t2.cellRef = s2.mem t2.cellRef := by
  obtain ⟨hp, hc, hpc⟩ := hwf
  intro t2 s2 h
  have ht : t2 = (Timestep.copy s t).1 := by rw [h]
  have hs : s2 = (Timestep.copy s t).2 := by rw [h]
  subst ht; subst hs
  have e1 : (Timestep.copy s t).1.posRef = s.next + 1 := rfl
  have e2 : (Timestep.copy s t).1.cellRef = s.next := rfl
  refine ⟨rfl, rfl, ?_, ?_, ?_, ?_, ?_, ?_, ?_, ?_⟩
  · rw [e1, copy_mem, if_pos rfl]
  · rw [e2, copy_mem, if_neg (by omega), if_pos rfl]
  · rw [copy_mem, if_neg (by omega), if_neg (by omega)]
  · rw [copy_mem, if_neg (by omega), if_neg (by omega)]
  · rw [e1, write_mem, if_neg (by omega)]
  · rw [e2, write_mem, if_neg (by omega)]
  · rw [e1, write_mem, if_neg (by omega)]
  · rw [e2, write_mem, if_neg (by omega)]

/-- Mutation payload used by the C6 witness. -/
def bufMut : Buffer := ⟨2, 3, [7, 7, 7, 7, 7, 7]⟩

/-- Witness for C6 on the concrete two-atom frame. -/
theorem copy_independent_witness :
    Timestep.WF storePos123456 ts2.1 ∧
    ((Timestep.copy storePos123456 ts2.1).1.numatoms = ts2.1.numatoms ∧
     (Timestep.copy storePos123456 ts2.1).1.frame = ts2.1.frame ∧
     (Timestep.copy storePos123456 ts2.1).2.mem
        (Timestep.copy storePos123456 ts2.1).1.posRef =
       storePos123456.mem ts2.1.posRef ∧
     (Timestep.copy storePos123456 ts2.1).2.mem
        (Timestep.copy storePos123456 ts2.1).1.cellRef =
       storePos123456.mem ts2.1.cellRef ∧
     (Timestep.copy storePos123456 ts2.1).2.mem ts2.1.posRef =
       storePos123456.mem ts2.1.posRef ∧
     (Timestep.copy storePos123456 ts2.1).2.mem ts2.1.cellRef =
       storePos123456.mem ts2.1.cellRef ∧
     (Store.write (Timestep.copy storePos123456 ts2.1).2
        (Timestep.copy storePos123456 ts2.1).1.posRef bufMut).mem ts2.1.posRef =
       (Timestep.copy storePos123456 ts2.1).2.mem ts2.1.posRef ∧
     (Store.write (Timestep.copy storePos123456 ts2.1).2
        (Timestep.copy storePos123456 ts2.1).1.cellRef bufMut).mem ts2.1.cellRef =
       (Timestep.copy storePos123456 ts2.1).2.mem ts2.1.cellRef ∧
     (Store.write (Timestep.copy storePos123456 ts2.1).2
        ts2.1.posRef bufMut).mem (Timestep.copy storePos123456 ts2.1).1.posRef =
       (Timestep.copy storePos123456 ts2.1).2.mem
         (Timestep.copy storePos123456 ts2.1).1.posRef ∧
     (Store.write (Timestep.copy storePos123456 ts2.1).2
        ts2.1.cellRef bufMut).mem (Timestep.copy storePos123456 ts2.1).1.cellRef =
       (Timestep.copy storePos123456 ts2.1).2.mem
         (Timestep.copy storePos123456 ts2.1).1.cellRef) :=
  ⟨by decide,
   copy_independent storePos123456 ts2.1 bufMut (by decide) _ _ rfl⟩

/-- An external numpy buffer handed to the constructor: its shape (the
number of dimensions is `shape.length`) and its elements flattened in
C (row-major) order, element `(i, j)` of a 2-D buffer at `i * d1 + j`. -/
structure NDArray where
  shape : List Nat
  data : List ℚ

/-- `arg.copy('Fortran')` for a 2-D `d0 × d1` buffer: the same logical
elements laid out column-major, element `(i, j)` at flat position
`j * d0 + i`. -/
def toFortran (d0 d1 : Nat) (data : List ℚ) : List ℚ :=
  (List.range (d0 * d1)).map (fun k => data.getD ((k % d0) * d1 + k / d0) 0)

/-- `Timestep.__init__` on a `numpy.ndarray` argument: raises
`ValueError` ("numpy array can only have 2 dimensions") unless the shape
is exactly 2-D; allocates a zero unit cell; sets
`numatoms = shape[0] if shape[0] == 3 else shape[-1]`; copies the data
with `arg.copy('Fortran')`.  After the branch, `__init__` ends with
`self._x = self._pos[:,0]`, `self._y = self._pos[:,1]`,
`self._z = self._pos[:,2]` (source lines 56-58): on this path `_pos` has
shape `(d0, d1)`, so these column accesses raise `IndexError` whenever
the last dimension is below 3, and the constructor fails. -/
def Timestep.fromMatrix (s : Store) (a : NDArray) :
    Except TErr (Timestep × Store) :=
  match a.shape with
  | [d0, d1] =>
    let ca := Store.alloc s ⟨6, 1, List.replicate 6 0⟩
    let pa := Store.alloc ca.2 ⟨d0, d1, toFortran d0 d1 a.data⟩
    if d1 < 3 then .error .IndexOutOfRange
    else
      .ok ({ frame := 0, numatoms := (if d0 = 3 then d0 else d1),
             posRef := pa.1, cellRef := ca.1 }, pa.2)
  | _ => .error .InvalidShape

/-- C2: whenever adopting a 2-D buffer yields a Frame, its atom count is
the first dimension when that equals 3 and the last dimension otherwise;
adoption succeeds whenever the last dimension is at least 3 (smaller
last dimensions fail in the trailing per-axis view assignments, so no
Frame results from them). -/
theorem fromMatrix_numatoms (s : Store) (a : NDArray) (d0 d1 : Nat)
    (h : a.shape = [d0, d1]) :
    (∀ t s2, Timestep.fromMatrix s a = .ok (t, s2) →
      (d0 = 3 → t.numatoms = d0) ∧
      (d0 ≠ 3 → t.numatoms = a.shape.getLastD 0)) ∧
    (3 ≤ d1 → ∃ t s2, Timestep.fromMatrix s a = .ok (t, s2)) := by
  obtain ⟨sh, da⟩ := a
  replace h : sh = [d0, d1] := h
  subst h
  constructor
  · intro t s2 hok
    simp only [Timestep.fromMatrix] at hok
    by_cases hd : d1 < 3
    · rw [if_pos hd] at hok
      exact absurd hok (by simp)
    · rw [if_neg hd] at hok
      injection hok with h1
      have hn : (if d0 = 3 then d0 else d1) = t.numatoms :=
        congrArg (fun p => p.1.numatoms) h1
      constructor
      · intro h3
        rw [← hn, if_pos h3]
      · intro h3
        rw [← hn, if_neg h3]
        rfl
  · intro hd
    have hok : Timestep.fromMatrix s ⟨[d0, d1], da⟩ =
        .ok (⟨0, (if d0 = 3 then d0 else d1), s.next + 1, s.next⟩,
          ⟨s.next + 2, fun x =>
            if x = s.next + 1 then ⟨d0, d1, toFortran d0 d1 da⟩
            else if x = s.next then ⟨6, 1, List.replicate 6 0⟩
            else s.mem x⟩) := by
      simp only [Timestep.fromMatrix]
      rw [if_neg (by omega)]
      rfl
    exact ⟨_, _, hok⟩

/-- Fixture: a 2 × 4 C-ordered buffer. -/
def mat24 : NDArray := ⟨[2, 4], [1, 2, 3, 4, 5, 6, 7, 8]⟩

/-- Fixture: a 1-D (non-2-D) buffer. -/
def mat1d : NDArray := ⟨[4], [1, 2, 3, 4]⟩

/-- Fixture: a 5 × 2 C-ordered buffer (2-D, but last dimension below 3). -/
def mat52 : NDArray := ⟨[5, 2], [1, 2, 3, 4, 5, 6, 7, 8, 9, 10]⟩

/-- Witness for C2 on the 2 × 4 buffer (first dimension not 3, so the
atom count is the last dimension, 4). -/
theorem fromMatrix_numatoms_witness :
    mat24.shape = [2, 4] ∧ 3 ≤ 4 ∧
    (∃ t s2, Timestep.fromMatrix emptyStore mat24 = .ok (t, s2) ∧
      t.numatoms = mat24.shape.getLastD 0) := by
  refine ⟨rfl, by omega, ?_⟩
  obtain ⟨t, s2, hok⟩ :=
    (fromMatrix_numatoms emptyStore mat24 2 4 rfl).2 (by omega)
  exact ⟨t, s2, hok,
    ((fromMatrix_numatoms emptyStore mat24 2 4 rfl).1 t s2 hok).2 (by omega)⟩

/-- Elementwise content of the Fortran copy: position `j * d0 + i` of the
column-major copy holds element `(i, j)`, i.e. position `i * d1 + j` of
the row-major original. -/
theorem toFortran_getD (d0 d1 : Nat) (data : List ℚ) (i j : Nat)
    (hi : i < d0) (hj : j < d1) :
    (toFortran d0 d1 data).getD (j * d0 + i) 0 = data.getD (i * d1 + j) 0 := by
  have hlt : j * d0 + i < d0 * d1 := by
    calc j * d0 + i < j * d0 + d0 := by omega
    _ = (j + 1) * d0 := by ring
    _ ≤ d1 * d0 := Nat.mul_le_mul_right _ (by omega)
    _ = d0 * d1 := Nat.mul_comm _ _
  have h1 : (j * d0 + i) % d0 = i := by
    rw [Nat.mul_comm j d0, Nat.mul_add_mod, Nat.mod_eq_of_lt hi]
  have h2 : (j * d0 + i) / d0 = j := by
    rw [Nat.mul_comm j d0, Nat.mul_add_div (by omega), Nat.div_eq_of_lt hi]
    omega
  unfold toFortran
  rw [List.getD_eq_getElem?_getD, List.getElem?_map, List.getElem?_range hlt]
  simp only [Option.map_some', Option.getD_some]
  rw [h1, h2]

/-- C9 counterexample: the 5 × 2 buffer is exactly two-dimensional, yet
`new_from_matrix` does NOT succeed on it — the constructor's trailing
`self._z = self._pos[:,2]` (source line 58) raises `IndexError` because
the copied `(5, 2)` position buffer has no column 2 — refuting the
claim's "for every exactly-two-dimensional buffer it succeeds". -/
theorem fromMatrix_narrow_counterexample :
    mat52.shape.length = 2 ∧
    Timestep.fromMatrix emptyStore mat52 = .error .IndexOutOfRange := by
  constructor
  · rfl
  · rfl

/-- C9 amended: a buffer that is not exactly 2-D is rejected with the
shape error; a 2-D buffer whose last dimension is below 3 fails with
`IndexOutOfRange` in the trailing per-axis view assignments
(`_x`/`_y`/`_z`); a 2-D buffer with last dimension at least 3 is
adopted, its data copied into the canonical column-major layout
(elementwise equal to the original). -/
theorem fromMatrix_shape_check (s : Store) (a : NDArray) :
    (a.shape.length ≠ 2 → Timestep.fromMatrix s a = .error .InvalidShape) ∧
    (∀ d0 d1, a.shape = [d0, d1] → d1 < 3 →
      Timestep.fromMatrix s a = .error .IndexOutOfRange) ∧
    (∀ d0 d1, a.shape = [d0, d1] → 3 ≤ d1 →
      ∃ t s2, Timestep.fromMatrix s a = .ok (t, s2) ∧
        s2.mem t.posRef = ⟨d0, d1, toFortran d0 d1 a.data⟩ ∧
        (∀ i j, i < d0 → j < d1 →
          (s2.mem t.posRef).flat.getD (j * d0 + i) 0 =
            a.data.getD (i * d1 + j) 0)) := by
  refine ⟨?_, ?_, ?_⟩
  · intro h
    obtain ⟨sh, da⟩ := a
    rcases sh with _ | ⟨x, _ | ⟨y, _ | ⟨z, r⟩⟩⟩
    · rfl
    · rfl
    · exact absurd rfl h
    · rfl
  · intro d0 d1 h hd
    obtain ⟨sh, da⟩ := a
    replace h : sh = [d0, d1] := h
    subst h
    simp only [Timestep.fromMatrix]
    rw [if_pos hd]
  · intro d0 d1 h hd
    obtain ⟨sh, da⟩ := a
    replace h : sh = [d0, d1] := h
    subst h
    have hok : Timestep.fromMatrix s ⟨[d0, d1], da⟩ =
        .ok (⟨0, (if d0 = 3 then d0 else d1), s.next + 1, s.next⟩,
          ⟨s.next + 2, fun x =>
            if x = s.next + 1 then ⟨d0, d1, toFortran d0 d1 da⟩
            else if x = s.next then ⟨6, 1, List.replicate 6 0⟩
            else s.mem x⟩) := by
      simp only [Timestep.fromMatrix]
      rw [if_neg (by omega)]
      rfl
    refine ⟨_, _, hok, ?_, ?_⟩
    · show (if s.next + 1 = s.next + 1 then _ else _) = _
      rw [if_pos rfl]
    · intro i j hi hj
      show (if s.next + 1 = s.next + 1 then (⟨d0, d1, toFortran d0 d1 da⟩ : Buffer)
            else if s.next + 1 = s.next then ⟨6, 1, List.replicate 6 0⟩
            else s.mem (s.next + 1)).flat.getD (j * d0 + i) 0
          = da.getD (i * d1 + j) 0
      rw [if_pos rfl]
      exact toFortran_getD d0 d1 da i j hi hj

/-- Witness for the amended C9: the 1-D buffer is rejected with the
shape error, the 5 × 2 buffer with the bounds error, and the 2 × 4
buffer is adopted and copied. -/
theorem fromMatrix_shape_check_witness :
    (mat1d.shape.length ≠ 2 ∧
      Timestep.fromMatrix emptyStore mat1d = .error .InvalidShape) ∧
    (mat52.shape = [5, 2] ∧ 2 < 3 ∧
      Timestep.fromMatrix emptyStore mat52 = .error .IndexOutOfRange) ∧
    (mat24.shape = [2, 4] ∧ 3 ≤ 4 ∧
      ∃ t s2, Timestep.fromMatrix emptyStore mat24 = .ok (t, s2) ∧
        s2.mem t.posRef = ⟨2, 4, toFortran 2 4 mat24.data⟩ ∧
        (∀ i j, i < 2 → j < 4 →
          (s2.mem t.posRef).flat.getD (j * 2 + i) 0 =
            mat24.data.getD (i * 4 + j) 0)) :=
  ⟨⟨by decide, (fromMatrix_shape_check emptyStore mat1d).1 (by decide)⟩,
   ⟨rfl, by omega, (fromMatrix_shape_check emptyStore mat52).2.1 5 2 rfl (by omega)⟩,
   ⟨rfl, by omega, (fromMatrix_shape_check emptyStore mat24).2.2 2 4 rfl (by omega)⟩⟩

/-- Physical quantity names used by the conversion methods. -/
inductive Quantity where
  | length
  | time
deriving DecidableEq, Repr

/-- Direction of a conversion method: `fromNative` looks up the factor
`(quantity, native_unit, base_unit)`, `toNative` the factor
`(quantity, base_unit, native_unit)`. -/
inductive ConvDir where
  | fromNative
  | toNative
deriving DecidableEq, Repr

/-- The `IObase` class body in source order: each unit-conversion `def`
with its name, the quantity it converts and the direction of its factor
lookup.  The two entries named `convert_time_from_native` are the
duplicate definitions at lines 107 and 119 of the source: the first uses
the native-to-base factor, the second the base-to-native factor. -/
def IObaseClassBody : List (String × Quantity × ConvDir) :=
  [("convert_pos_from_native", Quantity.length, ConvDir.fromNative),
   ("convert_time_from_native", Quantity.time, ConvDir.fromNative),
   ("convert_pos_to_native", Quantity.length, ConvDir.toNative),
   ("convert_time_from_native", Quantity.time, ConvDir.toNative)]

/-- Python class-body semantics: the method table binds each name to the
LAST definition with that name (a later duplicate silently overrides an
earlier one). -/
def methodTable (defs : List (String × Quantity × ConvDir)) (nm : String) :
    Option (Quantity × ConvDir) :=
  defs.foldl (fun acc p => if p.1 = nm then some p.2 else acc) none

/-- C1 (code defect): after class-body evaluation `IObase` has NO method
`convert_time_to_native`, and its single time-conversion method
`convert_time_from_native` resolves to the second duplicate definition,
which applies the base-to-native factor — so time conversion is NOT
available in both directions as distinct, independently callable
operations. -/
theorem time_conversion_duplicate_override :
    methodTable IObaseClassBody "convert_time_to_native" = none ∧
    methodTable IObaseClassBody "convert_time_from_native" =
      some (Quantity.time, ConvDir.toNative) ∧
    methodTable IObaseClassBody "convert_pos_from_native" =
      some (Quantity.length, ConvDir.fromNative) ∧
    methodTable IObaseClassBody "convert_pos_to_native" =
      some (Quantity.length, ConvDir.toNative) := by
  refine ⟨?_, ?_, ?_, ?_⟩ <;> rfl

/-- Per-stream native units (`IObase.units`), unit names as strings. -/
structure IOUnits where
  lengthUnit : String
  timeUnit : String

/-- The process-wide base-unit configuration
(`MDAnalysis.core.flags['length_unit']` / `['time_unit']`). -/
structure CoreFlags where
  length_unit : String
  time_unit : String

/-- Modelled from the spec: the unit-registry collaborator
`MDAnalysis.core.units.get_conversion_factor` is not part of this module;
the spec says the conversion factor is resolved by looking up
`(quantity, from_unit, to_unit)` in the external registry.  We abstract
it as a function from that triple to a scalar. -/
def UnitRegistry : Type := Quantity → String → String → ℚ

/-- `IObase.convert_pos_from_native`: in place, `x *= f` with
`f = get_conversion_factor('length', self.units['length'],
flags['length_unit'])`. -/
def convert_pos_from_native (reg : UnitRegistry) (fl : CoreFlags)
    (io : IOUnits) (x : List ℚ) : List ℚ :=
  x.map (fun v => v * reg Quantity.length io.lengthUnit fl.length_unit)

/-- `IObase.convert_pos_to_native`: in place, `x *= f` with
`f = get_conversion_factor('length', flags['length_unit'],
self.units['length'])`. -/
def convert_pos_to_native (reg : UnitRegistry) (fl : CoreFlags)
    (io : IOUnits) (x : List ℚ) : List ℚ :=
  x.map (fun v => v * reg Quantity.length fl.length_unit io.lengthUnit)

/-- C7: if the registry's base-to-native length factor is the inverse of
the nonzero native-to-base factor, then `position_to_native`
(`position_from_native x`) restores `x` exactly. -/
theorem pos_conversion_round_trip (reg : UnitRegistry) (fl : CoreFlags)
    (io : IOUnits) (x : List ℚ)
    (hne : reg Quantity.length io.lengthUnit fl.length_unit ≠ 0)
    (hinv : reg Quantity.length fl.length_unit io.lengthUnit =
      (reg Quantity.length io.lengthUnit fl.length_unit)⁻¹) :
    convert_pos_to_native reg fl io (convert_pos_from_native reg fl io x) = x := by
  unfold convert_pos_from_native convert_pos_to_native
  rw [List.map_map]
  have hpt : ∀ v : ℚ,
      v * reg Quantity.length io.lengthUnit fl.length_unit *
        reg Quantity.length fl.length_unit io.lengthUnit = v := by
    intro v
    rw [hinv, mul_assoc, mul_inv_cancel₀ hne, mul_one]
  calc x.map ((fun v => v * reg Quantity.length fl.length_unit io.lengthUnit) ∘
        (fun v => v * reg Quantity.length io.lengthUnit fl.length_unit))
      = x.map id := List.map_congr_left (fun v _ => hpt v)
    _ = x := List.map_id x

/-- A concrete registry for the C7 witness: native length unit "nm",
base length unit "Angstrom", factor 10 one way and 1/10 back. -/
def regTest : UnitRegistry :=
  fun _ u _ => if u = "nm" then 10 else (10 : ℚ)⁻¹

/-- Witness for C7 with factor 10 on the buffer `[1, 5/2, -3]`. -/
theorem pos_conversion_round_trip_witness :
    regTest Quantity.length "nm" "Angstrom" ≠ 0 ∧
    regTest Quantity.length "Angstrom" "nm" =
      (regTest Quantity.length "nm" "Angstrom")⁻¹ ∧
    convert_pos_to_native regTest ⟨"Angstrom", "ps"⟩ ⟨"nm", "ps"⟩
      (convert_pos_from_native regTest ⟨"Angstrom", "ps"⟩ ⟨"nm", "ps"⟩
        [1, 5/2, -3]) = [1, 5/2, -3] :=
  ⟨by norm_num [regTest], by norm_num [regTest]; decide,
   pos_conversion_round_trip regTest ⟨"Angstrom", "ps"⟩ ⟨"nm", "ps"⟩
     [1, 5/2, -3] (by norm_num [regTest])
     (by norm_num [regTest]; decide)⟩

/-- A Python index expression passed to `Timestep.__getitem__`. -/
inductive IndexArg where
  | int (i : Int)
  | slice (start stop step : Option Int)
  | array (idxs : List Int)
  | other

/-- Rows selected from `_pos`: numpy basic slicing yields a VIEW (an
address into the store plus the selected row indices, so later in-place
writes to that buffer show through it); advanced (index-array) indexing
yields an independent copy of the row data. -/
inductive Rows where
  | view (ref : Nat) (idxs : List Nat)
  | copied (data : List (List ℚ))
deriving DecidableEq, Repr

/-- Result of `Timestep.__getitem__`. -/
inductive GetResult where
  | atom (v : List ℚ)
  | rows (r : Rows)
deriving DecidableEq, Repr

/-- CPython `slice.indices` clamping of one endpoint: a negative value is
shifted by the length and clamped below at `lower`; a non-negative value
is clamped above at `upper`; a missing value gives the default. -/
def clampIndex (nI lower upper : Int) (o : Option Int) (dflt : Int) : Int :=
  match o with
  | none => dflt
  | some v => if v < 0 then max (v + nI) lower else min v upper

/-- Modelled from numpy's documented basic-slicing semantics (identical
to CPython `slice.indices(n)`), which `self._pos[atoms]` delegates to for
a slice argument: the row indices selected by `start:stop:step` on the
first axis of an array with `n` rows.  Out-of-range endpoints are clamped
(never an error); the result may simply have fewer rows. -/
def sliceIdxList (n : Nat) (a b c : Option Int) : List Nat :=
  if 0 < c.getD 1 then
    if clampIndex (n : Int) 0 (n : Int) a 0 <
        clampIndex (n : Int) 0 (n : Int) b (n : Int) then
      (List.range (((clampIndex (n : Int) 0 (n : Int) b (n : Int) -
            clampIndex (n : Int) 0 (n : Int) a 0).toNat +
          (c.getD 1).toNat - 1) / (c.getD 1).toNat)).map
        (fun k => (clampIndex (n : Int) 0 (n : Int) a 0).toNat +
          k * (c.getD 1).toNat)
    else []
  else
    if clampIndex (n : Int) (-1) ((n : Int) - 1) b (-1) <
        clampIndex (n : Int) (-1) ((n : Int) - 1) a ((n : Int) - 1) then
      (List.range (((clampIndex (n : Int) (-1) ((n : Int) - 1) a ((n : Int) - 1) -
            clampIndex (n : Int) (-1) ((n : Int) - 1) b (-1)).toNat +
          (-(c.getD 1)).toNat - 1) / (-(c.getD 1)).toNat)).map
        (fun k => (clampIndex (n : Int) (-1) ((n : Int) - 1) a ((n : Int) - 1)).toNat -
          k * (-(c.getD 1)).toNat)
    else []

/-- Slicing with a zero step raises `ValueError`; any other slice
selects the clamped index list. -/
def sliceIndices (n : Nat) (a b c : Option Int) : Except TErr (List Nat) :=
  if c.getD 1 = 0 then .error .InvalidArgument
  else .ok (sliceIdxList n a b c)

/-- Modelled from numpy's documented advanced-indexing semantics, which
`self._pos[atoms]` delegates to for an index-array argument: each entry
outside `[-n, n)` raises `IndexError`; a negative entry counts from
the end. -/
def resolveIdx (n : Nat) (i : Int) : Except TErr Nat :=
  if i < -(n : Int) ∨ (n : Int) ≤ i then .error .IndexOutOfRange
  else .ok ((if i < 0 then (n : Int) + i else i).toNat)

/-- Resolve a whole index array (first out-of-range entry raises). -/
def resolveIdxs (n : Nat) : List Int → Except TErr (List Nat)
  | [] => .ok []
  | i :: rest => do
    let r ← resolveIdx n i
    let rs ← resolveIdxs n rest
    .ok (r :: rs)

/-- `Timestep.__getitem__` in full: an `int` goes through the bounds
check of `get_atom`; a `slice` returns a view of `_pos` (numpy basic
slicing); an index array returns a bounds-checked copy (numpy advanced
indexing); anything else raises `TypeError`. -/
def Timestep.getitem (s : Store) (t : Timestep) :
    IndexArg → Except TErr GetResult
  | .int i => (Timestep.getAtom s t i).map GetResult.atom
  | .slice a b c =>
    (sliceIndices t.numatoms a b c).map
      (fun l => GetResult.rows (Rows.view t.posRef l))
  | .array l =>
    (resolveIdxs t.numatoms l).map
      (fun l2 => GetResult.rows (Rows.copied
        (l2.map (fun i => (s.mem t.posRef).readRow i))))
  | .other => .error .UnsupportedIndexType

/-- Read the rows denoted by a result through the CURRENT store: a view
reads the buffer at its address now (so it aliases in-place mutation),
while copied data is fixed. -/
def readRowsR (s : Store) : Rows → List (List ℚ)
  | .view ref idxs => idxs.map (fun i => (s.mem ref).readRow i)
  | .copied d => d

/-- Arithmetic of the ceiling-division count: every generated multiple
stays below the distance. -/
theorem ceil_div_mul_lt (k d b : Nat) (hb : 0 < b)
    (hk : k < (d + b - 1) / b) : k * b < d := by
  have hd : 0 < d := by
    rcases Nat.eq_zero_or_pos d with h | h
    · subst h
      rw [Nat.zero_add, Nat.div_eq_of_lt (by omega)] at hk
      omega
    · exact h
  have h3 : (k + 1) * b ≤ ((d + b - 1) / b) * b := Nat.mul_le_mul_right _ hk
  have h4 : ((d + b - 1) / b) * b ≤ d + b - 1 := Nat.div_mul_le_self _ _
  have h5 : (k + 1) * b ≤ d + b - 1 := le_trans h3 h4
  have h6 : k * b + b = (k + 1) * b := by ring
  omega

/-- The clamped endpoint lies in `[lower, upper]`. -/
theorem clampIndex_bounds (nI lower upper : Int) (o : Option Int)
    (dflt : Int) (h1 : lower ≤ dflt) (h2 : dflt ≤ upper)
    (h3 : nI - 1 ≤ upper) (h4 : lower ≤ upper) (h5 : lower ≤ 0) :
    lower ≤ clampIndex nI lower upper o dflt ∧
      clampIndex nI lower upper o dflt ≤ upper := by
  cases o with
  | none => exact ⟨h1, h2⟩
  | some v =>
    simp only [clampIndex]
    split
    · exact ⟨le_max_right _ _, max_le (by omega) h4⟩
    · exact ⟨le_min (by omega) h4, min_le_right _ _⟩

/-- Every row index produced by basic slicing is within `[0, n)`: slices
are clamped, never bounds-errors. -/
theorem sliceIdxList_lt (n : Nat) (a b c : Option Int) :
    ∀ j ∈ sliceIdxList n a b c, j < n := by
  intro j hj
  unfold sliceIdxList at hj
  by_cases hstep : (0 : Int) < c.getD 1
  · rw [if_pos hstep] at hj
    have hsa := clampIndex_bounds (n : Int) 0 (n : Int) a 0
      (le_refl 0) (by omega) (by omega) (by omega) (le_refl 0)
    have hsb := clampIndex_bounds (n : Int) 0 (n : Int) b (n : Int)
      (by omega) (le_refl _) (by omega) (by omega) (le_refl 0)
    by_cases hlt : clampIndex (n : Int) 0 (n : Int) a 0 <
        clampIndex (n : Int) 0 (n : Int) b (n : Int)
    · rw [if_pos hlt] at hj
      obtain ⟨k, hkmem, hkeq⟩ := List.mem_map.mp hj
      rw [List.mem_range] at hkmem
      have hkb := ceil_div_mul_lt k _ _ (by omega) hkmem
      omega
    · rw [if_neg hlt] at hj
      cases hj
  · rw [if_neg hstep] at hj
    have hsa := clampIndex_bounds (n : Int) (-1) ((n : Int) - 1) a
      ((n : Int) - 1) (by omega) (le_refl _) (by omega) (by omega) (by omega)
    have hsb := clampIndex_bounds (n : Int) (-1) ((n : Int) - 1) b (-1)
      (le_refl _) (by omega) (by omega) (by omega) (by omega)
    by_cases hlt : clampIndex (n : Int) (-1) ((n : Int) - 1) b (-1) <
        clampIndex (n : Int) (-1) ((n : Int) - 1) a ((n : Int) - 1)
    · rw [if_pos hlt] at hj
      obtain ⟨k, hkmem, hkeq⟩ := List.mem_map.mp hj
      omega
    · rw [if_neg hlt] at hj
      cases hj

/-- An index array containing an out-of-range entry resolves to the
bounds error. -/
theorem resolveIdxs_oob (n : Nat) (l : List Int) (i : Int) (hmem : i ∈ l)
    (hoob : i < -(n : Int) ∨ (n : Int) ≤ i) :
    resolveIdxs n l = .error .IndexOutOfRange := by
  induction l with
  | nil => cases hmem
  | cons x xs ih =>
    rcases List.mem_cons.mp hmem with h | h
    · subst h
      unfold resolveIdxs resolveIdx
      rw [if_pos hoob]
      rfl
    · unfold resolveIdxs
      rw [ih h]
      rcases hres : resolveIdx n x with e | r
      · have he : e = TErr.IndexOutOfRange := by
          unfold resolveIdx at hres
          split at hres
          · injection hres with h1
            exact h1.symm
          · exact absurd hres (by simp)
        rw [he]
        rfl
      · rfl

/-- C10 counterexample: on the two-atom frame, indexing with the index
array `[5]` DOES fail with the bounds error (numpy advanced indexing is
bounds-checked), and indexing with the in-range index array `[0]`
returns an independent COPY of the row data, not a view — refuting both
the "never fails with IndexOutOfRange" and the "returned rows are a
view" parts of the claim for index arrays. -/
theorem getitem_array_counterexample :
    Timestep.getitem ts2.2 ts2.1 (IndexArg.array [5]) =
      .error .IndexOutOfRange ∧
    Timestep.getitem ts2.2 ts2.1 (IndexArg.array [0]) =
      .ok (.rows (.copied [[0, 0, 0]])) := by
  constructor
  · rfl
  · rfl

/-- C10 amended: SLICE indexing is never bounds-checked — it cannot fail
with `IndexOutOfRange`, every successful slice yields a view of the
frame's own position buffer whose row indices are silently clamped to
`[0, numatoms)` (out-of-range slices just select fewer rows), and
reading that view after an in-place overwrite of the position buffer
sees the new data (aliasing).  INDEX-ARRAY indexing, by contrast, is
bounds-checked — an entry outside `[-numatoms, numatoms)` fails with
`IndexOutOfRange` — and on success returns an independent copy of the
selected rows. -/
theorem getitem_range_spec (s : Store) (t : Timestep) :
    (∀ a b c, Timestep.getitem s t (IndexArg.slice a b c) ≠
      .error .IndexOutOfRange) ∧
    (∀ a b c r, Timestep.getitem s t (IndexArg.slice a b c) = .ok r →
      ∃ idxs, r = .rows (.view t.posRef idxs) ∧
        (∀ j ∈ idxs, j < t.numatoms) ∧
        (∀ bnew, readRowsR (Store.write s t.posRef bnew)
            (Rows.view t.posRef idxs) =
          idxs.map (fun i => bnew.readRow i))) ∧
    (∀ l l2, resolveIdxs t.numatoms l = .ok l2 →
      Timestep.getitem s t (IndexArg.array l) =
        .ok (.rows (.copied
          (l2.map (fun i => (s.mem t.posRef).readRow i))))) ∧
    (∀ l, (∃ i, i ∈ l ∧
        (i < -(t.numatoms : Int) ∨ (t.numatoms : Int) ≤ i)) →
      Timestep.getitem s t (IndexArg.array l) =
        .error .IndexOutOfRange) := by
  refine ⟨?_, ?_, ?_, ?_⟩
  · intro a b c hcontra
    simp only [Timestep.getitem, sliceIndices] at hcontra
    by_cases h0 : c.getD 1 = 0
    · rw [if_pos h0] at hcontra
      exact absurd hcontra (by simp [Except.map])
    · rw [if_neg h0] at hcontra
      exact absurd hcontra (by simp [Except.map])
  · intro a b c r h
    simp only [Timestep.getitem, sliceIndices] at h
    by_cases h0 : c.getD 1 = 0
    · rw [if_pos h0] at h
      exact absurd h (by simp [Except.map])
    · rw [if_neg h0] at h
      have hr : r = .rows (.view t.posRef (sliceIdxList t.numatoms a b c)) := by
        simp [Except.map] at h
        exact h.symm
      refine ⟨sliceIdxList t.numatoms a b c, hr,
        sliceIdxList_lt t.numatoms a b c, ?_⟩
      intro bnew
      have hw : (Store.write s t.posRef bnew).mem t.posRef = bnew := by
        rw [write_mem, if_pos rfl]
      simp only [readRowsR]
      rw [hw]
  · intro l l2 h
    simp only [Timestep.getitem]
    rw [h]
    rfl
  · intro l hl
    obtain ⟨i, hmem, hoob⟩ := hl
    simp only [Timestep.getitem]
    rw [resolveIdxs_oob t.numatoms l i hmem hoob]
    rfl

/-- Witness for the amended C10 on the two-atom frame: the overlong
slice `0:5` succeeds with the clamped view `[0, 1]`; the index array
`[1, -1]` resolves in bounds to a copy; the index array `[5]` is
rejected. -/
theorem getitem_range_spec_witness :
    (Timestep.getitem ts2.2 ts2.1 (IndexArg.slice (some 0) (some 5) none) ≠
      .error .IndexOutOfRange) ∧
    (∃ idxs, (GetResult.rows (Rows.view ts2.1.posRef [0, 1])) =
        .rows (.view ts2.1.posRef idxs) ∧
      (∀ j ∈ idxs, j < ts2.1.numatoms) ∧
      (∀ bnew, readRowsR (Store.write ts2.2 ts2.1.posRef bnew)
          (Rows.view ts2.1.posRef idxs) =
        idxs.map (fun i => bnew.readRow i))) ∧
    (Timestep.getitem ts2.2 ts2.1 (IndexArg.array [1, -1]) =
      .ok (.rows (.copied
        ([1, 1].map (fun i => (ts2.2.mem ts2.1.posRef).readRow i))))) ∧
    (Timestep.getitem ts2.2 ts2.1 (IndexArg.array [5]) =
      .error .IndexOutOfRange) :=
  ⟨(getitem_range_spec ts2.2 ts2.1).1 (some 0) (some 5) none,
   (getitem_range_spec ts2.2 ts2.1).2.1 (some 0) (some 5) none
     (.rows (.view ts2.1.posRef [0, 1])) rfl,
   (getitem_range_spec ts2.2 ts2.1).2.2.1 [1, -1] [1, 1] rfl,
   (getitem_range_spec ts2.2 ts2.1).2.2.2 [5] ⟨5, by decide, by decide⟩⟩
